import Mathlib

/-!
Verification development for the sexythyme repository (race-timing data
model in racemodel.py and the calibration run-list scheduler in
calibration_gui.py).  Every definition is a shallow embedding of the
corresponding Python function; machine integers are modelled as Int
(Python ints are unbounded, the database stores 64-bit signed values and
the sentinel constants are derived from sys.maxsize = 2^63 - 1).
-/

namespace SexyThyme

/-! ### Time-delta codec (racemodel.py, lines 52-93) -/

/-- Python sys.maxsize on a 64-bit platform. -/
def PY_MAXSIZE : Int := 9223372036854775807

def MSECS_UNINITIALIZED : Int := -PY_MAXSIZE

def MSECS_DNS : Int := -PY_MAXSIZE + 1

def MSECS_DNF : Int := -PY_MAXSIZE + 2

def MSECS_DNP : Int := -PY_MAXSIZE + 3

def MSECS_SMALLEST_VALID : Int := -PY_MAXSIZE + 100

def EMPTY_JSON : String := "\x7b\x7d"

/-- Embeds msecs_is_valid (racemodel.py lines 66-68). -/
def msecs_is_valid (msecs : Int) : Bool :=
  decide (MSECS_SMALLEST_VALID < msecs)

/-- Two-digit zero-padded rendering of a non-negative integer (the mm and
ss fields of a Qt time format string). -/
def pad2 (n : Int) : String :=
  if n < 10 then "0" ++ toString n else toString n

/-- Three-digit zero-padded rendering of a non-negative integer (the zzz
field of a Qt time format string). -/
def pad3 (n : Int) : String :=
  if n < 10 then "00" ++ toString n
  else if n < 100 then "0" ++ toString n
  else toString n

/-- Number of further leading characters equal to c, so that a run
starting at c has length 1 + this (the qt_repeatCount of Qt). -/
def qt_repeat_count (c : Char) : List Char → Nat
  | [] => 0
  | x :: xs => if x = c then qt_repeat_count c xs + 1 else 0

/-- Whether a time format string contains an am/pm specifier anywhere
(the timeFormatContainsAP check of Qt); its presence switches the h
specifier to 12-hour display. -/
def time_format_contains_ap (fmt : List Char) : Bool :=
  fmt.any (fun c => c == 'a' || c == 'A')

/-- The hour value an h specifier displays: 12-hour when the format holds
an am/pm specifier (0 becomes 12, 13..23 drop 12), else the 24-hour
value. -/
def qt_hour_display (ap : Bool) (h : Int) : Int :=
  if ap then (if h > 12 then h - 12 else if h = 0 then 12 else h) else h

/-- One pass of the time-format walker of QTime.toString (the
dateTimeToString formatter of Qt with only the time part valid): h/hh
hour (12-hour when an am/pm specifier occurs in the format), H/HH hour,
m/mm minutes, s/ss seconds, z unpadded and zzz padded milliseconds, a/A
the am/pm text of the C locale in lower/upper case; every other
character, including the date specifiers d and y that QTime.toString
does not recognise, is copied verbatim.  Single-quoted sections and the
t specifier never occur in the format strings the source builds, so they
are not modelled.  The fuel is the number of characters left; every step
consumes at least one. -/
def qtime_format_walk (ap : Bool) (h m s z : Int) : Nat → List Char → String
  | 0, _ => ""
  | _, [] => ""
  | fuel + 1, c :: rest =>
    let run := 1 + qt_repeat_count c rest
    if c = 'h' ∨ c = 'H' then
      let rep := min run 2
      let hv := if c = 'h' then qt_hour_display ap h else h
      (if rep = 2 then pad2 hv else toString hv)
        ++ qtime_format_walk ap h m s z fuel (rest.drop (rep - 1))
    else if c = 'm' then
      let rep := min run 2
      (if rep = 2 then pad2 m else toString m)
        ++ qtime_format_walk ap h m s z fuel (rest.drop (rep - 1))
    else if c = 's' then
      let rep := min run 2
      (if rep = 2 then pad2 s else toString s)
        ++ qtime_format_walk ap h m s z fuel (rest.drop (rep - 1))
    else if c = 'z' then
      let rep := if run ≥ 3 then 3 else 1
      (if rep = 3 then pad3 z else toString z)
        ++ qtime_format_walk ap h m s z fuel (rest.drop (rep - 1))
    else if c = 'a' then
      let rep := if rest.head? = some 'p' then 2 else 1
      (if h < 12 then "am" else "pm")
        ++ qtime_format_walk ap h m s z fuel (rest.drop (rep - 1))
    else if c = 'A' then
      let rep := if rest.head? = some 'P' then 2 else 1
      (if h < 12 then "AM" else "PM")
        ++ qtime_format_walk ap h m s z fuel (rest.drop (rep - 1))
    else
      String.mk (List.replicate run c)
        ++ qtime_format_walk ap h m s z fuel (rest.drop (run - 1))

/-- Embeds QTime(0, 0).addMSecs(msecs).toString(fmt): the added msecs
wrap modulo one day (Int.emod by 86400000), and the resulting time of
day is rendered through the Qt format walker. -/
def qtime_to_string (msecs : Int) (fmt : String) : String :=
  let tod := Int.emod msecs (24 * 60 * 60 * 1000)
  let h := tod / (60 * 60 * 1000)
  let m := tod % (60 * 60 * 1000) / (60 * 1000)
  let s := tod % (60 * 1000) / 1000
  let z := tod % 1000
  qtime_format_walk (time_format_contains_ap fmt.toList) h m s z
    fmt.toList.length fmt.toList

/-- Embeds msecs_to_string (racemodel.py lines 70-93).  Python floor
division is Int.fdiv, and the Python percent formatting splices the day
count into the format string itself, so in the day branches the
unquoted letters of " days, " reach QTime.toString as format
characters. -/
def msecs_to_string (msecs : Int) : String :=
  if msecs_is_valid msecs then
    let days := Int.fdiv msecs (24 * 60 * 60 * 1000)
    let hours := Int.fdiv (msecs - days) (60 * 60 * 1000)
    if days ≠ 0 ∧ hours ≠ 0 then
      qtime_to_string msecs (toString days ++ " days, h:mm:ss.zzz")
    else if days ≠ 0 then
      qtime_to_string msecs (toString days ++ " days, m:ss.zzz")
    else if hours ≠ 0 then
      qtime_to_string msecs "h:mm:ss.zzz"
    else
      qtime_to_string msecs "m:ss.zzz"
  else if msecs = MSECS_DNF ∨ msecs = MSECS_UNINITIALIZED then "DNF"
  else if msecs = MSECS_DNP then "DNP"
  else if msecs = MSECS_DNS then "DNS"
  else "unknown"

/-! ### Race store entities (racemodel.py tables) -/

structure RaceField where
  id : Int
  name : String
  subfields : String
  metadata : String
deriving DecidableEq

structure Racer where
  bib : String
  first_name : String
  last_name : String
  field_id : Int
  category : String
  team : String
  age : Int
  start : Int
  finish : Int
  status : String
  metadata : String
deriving DecidableEq

structure ResultRow where
  scratchpad : String
  finish : Int
deriving DecidableEq

structure Database where
  fields : List RaceField
  racers : List Racer
  results : List ResultRow
  nextFieldId : Int
deriving DecidableEq

/-- Embeds FieldTableModel.id_from_name (racemodel.py lines 634-644):
first row whose name column matches, else None. -/
def id_from_name (fields : List RaceField) (name : String) : Option Int :=
  (fields.find? (fun f => f.name == name)).map (fun f => f.id)

/-- Python truthiness of an optional integer: None and 0 are falsy.  Used
where the source writes `if not field_id`. -/
def py_falsy_id (v : Option Int) : Bool :=
  match v with
  | none => true
  | some i => i == 0

/-- Embeds FieldTableModel.add_field (racemodel.py lines 646-662).  New
rows get the next free primary key. -/
def add_field (db : Database) (name subfields metadata : String) :
    Except String Database :=
  if name = "" then
    .error "Field name is invalid"
  else if (db.fields.find? (fun f => f.name == name)).isSome then
    .error "Field name is already being used."
  else
    .ok { db with
          fields := db.fields ++ [⟨db.nextFieldId, name, subfields, metadata⟩],
          nextFieldId := db.nextFieldId + 1 }

/-- Embeds RacerTableModel.add_racer (racemodel.py lines 821-885). -/
def add_racer (db : Database) (bib first_name last_name field category team : String)
    (age start finish : Int) (status metadata : String) : Except String Database :=
  if (db.racers.find? (fun r => r.bib == bib)).isSome then
    .error "Racer bib is already being used."
  else if first_name = "" ∧ last_name = "" then
    .error "Racer first and last name is ."
  else if field = "" then
    .error "Racer field is missing."
  else
    let fid0 := id_from_name db.fields field
    let looked : Except String (Database × Option Int) :=
      if py_falsy_id fid0 then
        match add_field db field "" EMPTY_JSON with
        | .error e => .error e
        | .ok db1 => .ok (db1, id_from_name db1.fields field)
      else .ok (db, fid0)
    match looked with
    | .error e => .error e
    | .ok (db1, fidOpt) =>
      match fidOpt with
      | none => .error "Racer field is invalid."
      | some fid =>
        .ok { db1 with racers := db1.racers ++
              [⟨bib, first_name, last_name, fid, category, team, age, start, finish,
                status, metadata⟩] }

/-- Update the first racer satisfying p (Qt match returns the first
matching row); none when no racer matches. -/
def update_first_racer (p : Racer → Bool) (f : Racer → Racer) :
    List Racer → Option (List Racer)
  | [] => none
  | r :: rs =>
    if p r then some (f r :: rs)
    else (update_first_racer p f rs).map (fun rs1 => r :: rs1)

/-- Embeds RacerTableModel.set_racer_finish (racemodel.py lines 1026-1036). -/
def set_racer_finish (racers : List Racer) (bib : String) (finish : Int) :
    Except String (List Racer) :=
  match update_first_racer (fun r => r.bib == bib) (fun r => { r with finish := finish }) racers with
  | none => .error ("Failed to find racer with bib " ++ bib)
  | some rs => .ok rs

/-- Embeds RacerTableModel.set_racer_status (racemodel.py lines 1038-1048). -/
def set_racer_status (racers : List Racer) (bib : String) (status : String) :
    Except String (List Racer) :=
  match update_first_racer (fun r => r.bib == bib) (fun r => { r with status := status }) racers with
  | none => .error ("Failed to find racer with bib " ++ bib)
  | some rs => .ok rs

/-- Embeds ResultTableModel.submit_result (racemodel.py lines 1248-1256):
set the racer finish and status, then delete the result row.  An
exception from either setter propagates before the removeRow call runs,
which the Except error models. -/
def submit_result (db : Database) (row : Nat) : Except String Database :=
  match db.results.get? row with
  | none => .error "Result row not found"
  | some rec =>
    match set_racer_finish db.racers rec.scratchpad rec.finish with
    | .error e => .error e
    | .ok racers1 =>
      match set_racer_status racers1 rec.scratchpad "local" with
      | .error e => .error e
      | .ok racers2 =>
        .ok { db with racers := racers2, results := db.results.eraseIdx row }

/-- QDateTime.msecsTo: milliseconds from a to b. -/
def msecsTo (a b : Int) : Int := b - a

/-- The per-row body of RacerTableModel.change_reference_clock_datetime
(racemodel.py lines 1103-1110): rewrite the start when valid, then the
finish when valid. -/
def rebase_racer (delta_msecs : Int) (r : Racer) : Racer :=
  let r1 := if msecs_is_valid r.start then { r with start := r.start - delta_msecs } else r
  if msecs_is_valid r1.finish then { r1 with finish := r1.finish - delta_msecs } else r1

/-- Embeds RacerTableModel.change_reference_clock_datetime (racemodel.py
lines 1092-1113).  The OnManualSubmit batching affects only write
amplification, not the resulting values. -/
def change_reference_clock_datetime (old_datetime new_datetime : Int)
    (racers : List Racer) : List Racer :=
  if old_datetime = new_datetime then racers
  else racers.map (rebase_racer (msecsTo old_datetime new_datetime))

/-- The relational display value of the racer field column: the name of
the field row whose id matches the racer field_id. -/
def racer_field_name (fields : List RaceField) (r : Racer) : Option String :=
  (fields.find? (fun f => f.id == r.field_id)).map (fun f => f.name)

/-- The loop of RacerTableModel.assign_start_times (racemodel.py lines
1071-1085), threading the running start value and the overwrite count
through the rows in table order. -/
def assign_loop (fields : List RaceField) (field_name : String) (interval : Int)
    (dry_run : Bool) : List Racer → Int → Nat → (List Racer × Nat)
  | [], _, count => ([], count)
  | r :: rs, start, count =>
    if field_name ≠ "" ∧ racer_field_name fields r ≠ some field_name then
      let p := assign_loop fields field_name interval dry_run rs start count
      (r :: p.1, p.2)
    else
      let r1 := if ¬ dry_run then { r with start := start } else r
      let count1 := if dry_run ∧ r.start ≠ MSECS_UNINITIALIZED then count + 1 else count
      let p := assign_loop fields field_name interval dry_run rs (start + interval * 1000) count1
      (r1 :: p.1, p.2)

/-- Embeds RacerTableModel.assign_start_times (racemodel.py lines
1050-1090).  The isinstance check is discharged by typing start as Int. -/
def assign_start_times (db : Database) (field_name : String) (start interval : Int)
    (dry_run : Bool) : Except String (Database × Nat) :=
  if field_name ≠ "" ∧ py_falsy_id (id_from_name db.fields field_name) then
    .error ("Invalid field " ++ field_name)
  else if ¬ msecs_is_valid start then
    .error "Start time is in the past"
  else
    let p := assign_loop db.fields field_name interval dry_run db.racers start 0
    .ok ({ db with racers := p.1 }, p.2)

/-! ### Calibration tool scheduler (calibration_gui.py) -/

/-- Tool status constants (calibration_gui.py lines 24-28). -/
inductive Status where
  | incomplete
  | pending
  | in_progress
  | failure
  | success
deriving DecidableEq

/-- A calibration tool: its name and its dependency list
(tool.metadata of the source).  Python object identity becomes structural
equality; the finite dependency graph of the source unfolds into this
tree shape. -/
inductive Tool where
  | mk (name : String) (deps : List Tool)

def Tool.name : Tool → String
  | .mk n _ => n

def Tool.deps : Tool → List Tool
  | .mk _ ds => ds

mutual

def Tool.decEq : (a b : Tool) → Decidable (a = b)
  | .mk n1 ds1, .mk n2 ds2 =>
    match String.decEq n1 n2 with
    | isFalse h => isFalse (by intro he; cases he; exact h rfl)
    | isTrue h1 =>
      match Tool.decEqList ds1 ds2 with
      | isFalse h => isFalse (by intro he; cases he; exact h rfl)
      | isTrue h2 => isTrue (by rw [h1, h2])

def Tool.decEqList : (l1 l2 : List Tool) → Decidable (l1 = l2)
  | [], [] => isTrue rfl
  | [], _ :: _ => isFalse (by simp)
  | _ :: _, [] => isFalse (by simp)
  | a :: l1, b :: l2 =>
    match Tool.decEq a b with
    | isFalse h => isFalse (by simp [h])
    | isTrue h1 =>
      match Tool.decEqList l1 l2 with
      | isFalse h => isFalse (by simp [h])
      | isTrue h2 => isTrue (by rw [h1, h2])

end

instance : DecidableEq Tool := Tool.decEq

/-- The part of the tool table state that add_to_run_list touches: the
run_list and the per-tool displayed status column. -/
structure RunState where
  run_list : List Tool
  disp : Tool → Status

mutual

/-- Embeds CalibrationToolTable.add_to_run_list (calibration_gui.py lines
574-587).  attr is the tool status attribute, which the method reads but
never writes; appending the tool and then set_status on its row makes its
displayed status Pending. -/
def add_to_run_list (attr : Tool → Status) (skip_dependencies : Bool) (tool : Tool)
    (s : RunState) : RunState :=
  if tool ∈ s.run_list then s
  else
    let s1 := if skip_dependencies then s
              else add_deps_to_run_list attr skip_dependencies tool.deps s
    ⟨s1.run_list ++ [tool], fun x => if x = tool then Status.pending else s1.disp x⟩
termination_by sizeOf tool
decreasing_by
  cases tool with
  | mk n ds => simp [Tool.deps]

/-- The dependency loop of add_to_run_list: recursively enqueue every
dependency whose status attribute is not Success. -/
def add_deps_to_run_list (attr : Tool → Status) (skip_dependencies : Bool) :
    List Tool → RunState → RunState
  | [], s => s
  | d :: ds, s =>
    add_deps_to_run_list attr skip_dependencies ds
      (if attr d ≠ Status.success then add_to_run_list attr skip_dependencies d s else s)
termination_by ds => sizeOf ds
decreasing_by
  all_goals (simp only [List.cons.sizeOf_spec]; omega)

end

/-- State of CalibrationToolTable: the table rows (tools), each tool
status attribute, the run_list with the displayed status column, and the
halt_on_failure setting. -/
structure SchedState where
  tools : List Tool
  attr : Tool → Status
  run : RunState
  halt_on_failure : Bool

/-- Embeds CalibrationToolTable.clear_run_list (calibration_gui.py lines
597-602): remove_from_run_list every queued tool, which sets each of
their displayed statuses to Incomplete. -/
def clear_run_list (s : SchedState) : SchedState :=
  { s with run := ⟨[], fun t => if t ∈ s.run.run_list then Status.incomplete
                                else s.run.disp t⟩ }

/-- Embeds CalibrationToolTable.halt (calibration_gui.py lines 604-610):
clear the run list, then revert the display of every table tool whose
status attribute is Pending to Incomplete. -/
def halt (s : SchedState) : SchedState :=
  let s1 := clear_run_list s
  { s1 with run := ⟨s1.run.run_list,
      fun t => if t ∈ s1.tools ∧ s1.attr t = Status.pending then Status.incomplete
               else s1.run.disp t⟩ }

/-- Embeds CalibrationToolTable.check_run_list (calibration_gui.py lines
558-572).  The returned option is the tool whose start method is invoked
by this drain step, none when nothing is started. -/
def check_run_list (s : SchedState) : SchedState × Option Tool :=
  if s.run.run_list.isEmpty then (s, none)
  else if s.halt_on_failure ∧ s.tools.any (fun t => s.attr t == Status.failure) then
    (halt s, none)
  else (s, s.run.run_list.head?)

/-- Embeds the combined-status computation of
CalibrationToolTable.set_status (calibration_gui.py lines 619-647),
applied to the list of tool status attributes. -/
def set_status_aggregate (statuses : List Status) : Status :=
  let num_incomplete := statuses.count Status.incomplete
  let num_pending := statuses.count Status.pending
  let num_in_progress := statuses.count Status.in_progress
  let num_failure := statuses.count Status.failure
  if num_in_progress ≠ 0 then Status.in_progress
  else if num_failure ≠ 0 then Status.failure
  else if num_pending ≠ 0 then Status.pending
  else if num_incomplete ≠ 0 ∧ num_pending = 0 then Status.incomplete
  else Status.success

/-- The precedence cascade as the specification words it: InProgress over
Failure over Pending over Incomplete over Success. -/
def aggregate_cascade (statuses : List Status) : Status :=
  if statuses.any (fun t => t == Status.in_progress) then Status.in_progress
  else if statuses.any (fun t => t == Status.failure) then Status.failure
  else if statuses.any (fun t => t == Status.pending) then Status.pending
  else if statuses.any (fun t => t == Status.incomplete) then Status.incomplete
  else Status.success

/-- Enqueue a tool: handle_tool_start calling add_to_run_list.  Only the
run-list and display state change; the status attributes are read only. -/
def enqueue_step (t : Tool) (skip : Bool) (s : SchedState) : SchedState :=
  { s with run := add_to_run_list s.attr skip t s.run }

/-- CalibrationTool.change_status plus the status_changed signal into
handle_tool_status_changed: the attribute and the displayed status of the
tool both become st. -/
def change_status_step (t : Tool) (st : Status) (s : SchedState) : SchedState :=
  { s with attr := fun x => if x = t then st else s.attr x,
           run := ⟨s.run.run_list, fun x => if x = t then st else s.run.disp x⟩ }

/-- A running tool finishes with Success or Failure: change_status, then
the finished signal into handle_tool_finished, which deletes the queue
head and re-runs check_run_list. -/
def finish_step (t : Tool) (ok : Bool) (s : SchedState) : SchedState :=
  let s1 := change_status_step t (if ok then Status.success else Status.failure) s
  let s2 := { s1 with run := ⟨s1.run.run_list.tail, s1.run.disp⟩ }
  (check_run_list s2).1

/-- Embeds CalibrationToolTable.remove_from_run_list (calibration_gui.py
lines 589-595). -/
def remove_step (t : Tool) (s : SchedState) : SchedState :=
  if t ∈ s.run.run_list then
    { s with run := ⟨s.run.run_list.erase t,
        fun x => if x = t then Status.incomplete else s.run.disp x⟩ }
  else s

/-- Embeds CalibrationToolTable.reset_tool_status (calibration_gui.py
lines 720-725): clear the run list, reset every tool attribute and
displayed status to Incomplete. -/
def reset_step (s : SchedState) : SchedState :=
  let s1 := clear_run_list s
  { s1 with attr := fun t => if t ∈ s1.tools then Status.incomplete else s1.attr t,
            run := ⟨s1.run.run_list,
                    fun t => if t ∈ s1.tools then Status.incomplete else s1.run.disp t⟩ }

/-- The state right after CalibrationToolTable.__init__ plus add_tool for
each tool: empty run list, every attribute and display Incomplete. -/
def init_state (tools : List Tool) (hof : Bool) : SchedState :=
  ⟨tools, fun _ => Status.incomplete, ⟨[], fun _ => Status.incomplete⟩, hof⟩

/-- One scheduler event.  tool_start and tool_finish carry the guard that
the affected tool is the queue head, which is how the drain loop starts
tools and how handle_tool_finished is reached. -/
inductive SchedStep : SchedState → SchedState → Prop where
  | enqueue (t : Tool) (skip : Bool) (s : SchedState) :
      SchedStep s (enqueue_step t skip s)
  | drain (s : SchedState) : SchedStep s (check_run_list s).1
  | tool_start (t : Tool) (s : SchedState) (h : s.run.run_list.head? = some t) :
      SchedStep s (change_status_step t Status.in_progress s)
  | tool_finish (t : Tool) (ok : Bool) (s : SchedState)
      (h : s.run.run_list.head? = some t) : SchedStep s (finish_step t ok s)
  | remove (t : Tool) (s : SchedState) : SchedStep s (remove_step t s)
  | reset_all (s : SchedState) : SchedStep s (reset_step s)
  | toggle_halt (b : Bool) (s : SchedState) :
      SchedStep s { s with halt_on_failure := b }

/-- States the scheduler can reach from start-up. -/
def Reachable (tools : List Tool) (hof : Bool) (s : SchedState) : Prop :=
  Relation.ReflTransGen SchedStep (init_state tools hof) s

/-- A display-Pending tool is queued.  This invariant of reachable
scheduler states links the Pending cells of the status column to run-list
membership. -/
def DispInv (s : SchedState) : Prop :=
  ∀ x, s.run.disp x = Status.pending → x ∈ s.run.run_list

/-! ### Sample data used by witnesses and counterexamples -/

/-- Racer used by the reference-clock counterexample: a valid start of 0
and an uninitialized finish. -/
def cex_racer : Racer :=
  ⟨"1", "A", "B", 1, "", "", 0, 0, MSECS_UNINITIALIZED, "", EMPTY_JSON⟩

def tool_a : Tool := .mk "A" []

def tool_c : Tool := .mk "C" [tool_a]

/-- Database used by the assign-start-times witness: FieldA with two
racers (one with an already-assigned start) and one racer in an unrelated
field. -/
def w2_db : Database :=
  ⟨[⟨1, "FieldA", "", EMPTY_JSON⟩],
   [⟨"1", "A", "", 1, "", "", 0, MSECS_UNINITIALIZED, MSECS_UNINITIALIZED, "", EMPTY_JSON⟩,
    ⟨"2", "B", "", 1, "", "", 0, 5000, MSECS_UNINITIALIZED, "", EMPTY_JSON⟩,
    ⟨"3", "C", "", 2, "", "", 0, MSECS_UNINITIALIZED, MSECS_UNINITIALIZED, "", EMPTY_JSON⟩],
   [], 2⟩

def w_tool : Tool := .mk "W" []

def w_s1 : SchedState := enqueue_step w_tool false (init_state [w_tool] true)

def w_s2 : SchedState := change_status_step w_tool Status.in_progress w_s1

def w_s3 : SchedState := finish_step w_tool false w_s2

/-! ### Helper lemmas -/

theorem assign_loop_snd_not_dry (fields : List RaceField) (fn : String) (i : Int) :
    ∀ (rs : List Racer) (start : Int) (count : Nat),
      (assign_loop fields fn i false rs start count).2 = count := by
  intro rs
  induction rs with
  | nil => intro start count; rfl
  | cons r rs ih =>
    intro start count
    by_cases hm : fn ≠ "" ∧ racer_field_name fields r ≠ some fn <;>
      simp [assign_loop, hm, ih]

theorem assign_loop_dry_run (fields : List RaceField) (fn : String) (i : Int)
    (hfn : fn ≠ "") :
    ∀ (rs : List Racer) (start : Int) (count : Nat),
      assign_loop fields fn i true rs start count
        = (rs, count + rs.countP (fun r =>
            decide (racer_field_name fields r = some fn ∧
                    r.start ≠ MSECS_UNINITIALIZED))) := by
  intro rs
  induction rs with
  | nil => intro start count; simp [assign_loop]
  | cons r rs ih =>
    intro start count
    by_cases hm : racer_field_name fields r = some fn
    · by_cases hs : r.start = MSECS_UNINITIALIZED
      · simp [assign_loop, hfn, hm, hs, ih, List.countP_cons]
      · simp [assign_loop, hfn, hm, hs, ih, List.countP_cons]
        omega
    · simp [assign_loop, hfn, hm, ih, List.countP_cons]

theorem assign_loop_length (fields : List RaceField) (fn : String) (i : Int)
    (dr : Bool) :
    ∀ (rs : List Racer) (start : Int) (count : Nat),
      (assign_loop fields fn i dr rs start count).1.length = rs.length := by
  intro rs
  induction rs with
  | nil => intro start count; rfl
  | cons r rs ih =>
    intro start count
    by_cases hm : fn ≠ "" ∧ racer_field_name fields r ≠ some fn <;>
      simp [assign_loop, hm, ih]

theorem assign_loop_get (fields : List RaceField) (fn : String) (i : Int)
    (hfn : fn ≠ "") :
    ∀ (rs : List Racer) (start : Int) (count : Nat) (j : Nat),
      (assign_loop fields fn i false rs start count).1[j]?
        = (rs[j]?).map (fun r =>
            if racer_field_name fields r = some fn
            then { r with start := start +
                   (((rs.take j).countP
                      (fun x => decide (racer_field_name fields x = some fn))) : Int)
                   * (i * 1000) }
            else r) := by
  intro rs
  induction rs with
  | nil => intro start count j; simp [assign_loop]
  | cons r rs ih =>
    intro start count j
    by_cases hm : racer_field_name fields r = some fn
    · cases j with
      | zero => simp [assign_loop, hfn, hm]
      | succ j =>
        have hbody : (assign_loop fields fn i false (r :: rs) start count).1
            = { r with start := start } ::
              (assign_loop fields fn i false rs (start + i * 1000)
                (if false = true ∧ r.start ≠ MSECS_UNINITIALIZED then count + 1 else count)).1 := by
          simp [assign_loop, hfn, hm]
        rw [hbody]
        simp only [List.getElem?_cons_succ, List.take_succ_cons, List.countP_cons]
        rw [ih (start + i * 1000) _ j]
        cases hx : rs[j]? with
        | none => simp
        | some x =>
          by_cases hxm : racer_field_name fields x = some fn
          · simp only [Option.map_some, Option.some.injEq, hm, hxm, if_pos,
              decide_eq_true_eq, if_true, Racer.mk.injEq]
            simp [hm, hxm]
            ring
          · simp [hm, hxm]
    · cases j with
      | zero => simp [assign_loop, hfn, hm]
      | succ j =>
        have hbody : (assign_loop fields fn i false (r :: rs) start count).1
            = r :: (assign_loop fields fn i false rs start count).1 := by
          simp [assign_loop, hfn, hm]
        rw [hbody]
        simp only [List.getElem?_cons_succ, List.take_succ_cons, List.countP_cons]
        rw [ih start count j]
        simp [hm]

theorem update_first_racer_eq_none (p : Racer → Bool) (f : Racer → Racer) :
    ∀ l : List Racer, (∀ r ∈ l, p r = false) → update_first_racer p f l = none := by
  intro l
  induction l with
  | nil => intro _; rfl
  | cons r rs ih =>
    intro h
    simp [update_first_racer, h r (by simp), ih (fun x hx => h x (by simp [hx]))]

theorem update_first_racer_eq_some (p : Racer → Bool) (f : Racer → Racer) :
    ∀ (l : List Racer) (j : Nat) (r0 : Racer), l[j]? = some r0 → p r0 = true →
      (∀ (k : Nat) (rk : Racer), k < j → l[k]? = some rk → p rk = false) →
      update_first_racer p f l = some (l.set j (f r0)) := by
  intro l
  induction l with
  | nil => intro j r0 h; simp at h
  | cons r rs ih =>
    intro j r0 hj hp hbefore
    cases j with
    | zero =>
      simp only [List.getElem?_cons_zero, Option.some.injEq] at hj
      subst hj
      simp [update_first_racer, hp]
    | succ j =>
      have hr : p r = false := hbefore 0 r (Nat.succ_pos j) (by simp)
      simp only [update_first_racer, hr, Bool.false_eq_true, if_false, List.set_cons_succ]
      rw [ih j r0 (by simpa using hj) hp
            (fun k rk hk hkr => hbefore (k + 1) rk (by omega) (by simpa using hkr))]
      rfl

theorem rebase_racer_start (d : Int) (r : Racer) :
    (rebase_racer d r).start =
      if msecs_is_valid r.start then r.start - d else r.start := by
  cases r with
  | mk bib fn ln fid cat team age st fin stt md =>
    by_cases hs : msecs_is_valid st <;>
      by_cases hf : msecs_is_valid fin <;>
        simp [rebase_racer, hs, hf]

theorem rebase_racer_finish (d : Int) (r : Racer) :
    (rebase_racer d r).finish =
      if msecs_is_valid r.finish then r.finish - d else r.finish := by
  cases r with
  | mk bib fn ln fid cat team age st fin stt md =>
    by_cases hs : msecs_is_valid st <;>
      by_cases hf : msecs_is_valid fin <;>
        simp [rebase_racer, hs, hf]

theorem rebase_racer_roundtrip (d : Int) (r : Racer)
    (h1 : msecs_is_valid r.start → msecs_is_valid (r.start - d))
    (h2 : msecs_is_valid r.finish → msecs_is_valid (r.finish - d)) :
    rebase_racer (-d) (rebase_racer d r) = r := by
  cases r with
  | mk bib fn ln fid cat team age st fin stt md =>
    by_cases hs : msecs_is_valid st <;> by_cases hf : msecs_is_valid fin
    · simp [rebase_racer, hs, hf, h1 hs, h2 hf]
    · simp [rebase_racer, hs, hf, h1 hs]
    · simp [rebase_racer, hs, hf, h2 hf]
    · simp [rebase_racer, hs, hf]

theorem id_from_name_cases (fields : List RaceField) (nm : String) :
    (id_from_name fields nm = none ∧ fields.find? (fun f => f.name == nm) = none)
    ∨ ∃ f, fields.find? (fun f => f.name == nm) = some f ∧
        id_from_name fields nm = some f.id := by
  unfold id_from_name
  cases hff : fields.find? (fun f => f.name == nm) with
  | none => exact Or.inl ⟨rfl, rfl⟩
  | some f => exact Or.inr ⟨f, rfl, rfl⟩

theorem add_racer_no_error (db : Database)
    (bib fn ln fld cat team : String) (age st fin : Int) (stt md : String)
    (hwf : ∀ f ∈ db.fields, f.id ≠ 0)
    (hdup : (db.racers.find? (fun r => r.bib == bib)).isSome = false)
    (hnames : ¬(fn = "" ∧ ln = "")) (hfld : fld ≠ "") :
    ∃ db2, add_racer db bib fn ln fld cat team age st fin stt md = .ok db2 := by
  unfold add_racer
  rw [if_neg (by simp [hdup]), if_neg hnames, if_neg hfld]
  rcases id_from_name_cases db.fields fld with ⟨hid, hff⟩ | ⟨f, hff, hid⟩
  · simp [hid, py_falsy_id, add_field, hfld, hff, id_from_name, List.find?_append]
  · have hv : f.id ≠ 0 := hwf f (List.mem_of_find?_eq_some hff)
    simp [hid, py_falsy_id, hv]

theorem Tool.sizeOf_deps_lt (t : Tool) : sizeOf t.deps < sizeOf t := by
  cases t with
  | mk n ds => simp [Tool.deps]

theorem add_to_run_list_self_mem (attr : Tool → Status) (skip : Bool) (tool : Tool)
    (s : RunState) : tool ∈ (add_to_run_list attr skip tool s).run_list := by
  rw [add_to_run_list]
  split
  · assumption
  · show tool ∈ (if skip then s
        else add_deps_to_run_list attr skip tool.deps s).run_list ++ [tool]
    simp

mutual

theorem add_to_run_list_mem_mono (attr : Tool → Status) (skip : Bool) :
    ∀ (tool : Tool) (s : RunState) (x : Tool), x ∈ s.run_list →
      x ∈ (add_to_run_list attr skip tool s).run_list
  | tool, s, x => by
    intro hx
    rw [add_to_run_list]
    split
    · exact hx
    · show x ∈ (if skip then s
          else add_deps_to_run_list attr skip tool.deps s).run_list ++ [tool]
      refine List.mem_append_left _ ?_
      by_cases hskip : skip = true
      · rw [if_pos hskip]; exact hx
      · rw [if_neg hskip]
        exact add_deps_mem_mono attr skip tool.deps s x hx
termination_by tool _ _ => sizeOf tool
decreasing_by
  cases tool with
  | mk n ds => simp [Tool.deps]

theorem add_deps_mem_mono (attr : Tool → Status) (skip : Bool) :
    ∀ (ds : List Tool) (s : RunState) (x : Tool), x ∈ s.run_list →
      x ∈ (add_deps_to_run_list attr skip ds s).run_list
  | [], _, _ => by
    intro hx
    simpa [add_deps_to_run_list] using hx
  | d :: ds, s, x => by
    intro hx
    simp only [add_deps_to_run_list]
    refine add_deps_mem_mono attr skip ds _ x ?_
    split
    · exact add_to_run_list_mem_mono attr skip d s x hx
    · exact hx
termination_by ds _ _ => sizeOf ds
decreasing_by
  all_goals (simp only [List.cons.sizeOf_spec]; omega)

end

mutual

theorem add_to_run_list_mem_bound (attr : Tool → Status) (skip : Bool) :
    ∀ (tool : Tool) (s : RunState) (x : Tool),
      x ∈ (add_to_run_list attr skip tool s).run_list →
      x ∈ s.run_list ∨ sizeOf x ≤ sizeOf tool
  | tool, s, x => by
    intro hx
    rw [add_to_run_list] at hx
    split at hx
    · exact Or.inl hx
    · have hx2 : x ∈ (if skip then s
          else add_deps_to_run_list attr skip tool.deps s).run_list ++ [tool] := hx
      rcases List.mem_append.mp hx2 with h | h
      · by_cases hskip : skip = true
        · rw [if_pos hskip] at h; exact Or.inl h
        · rw [if_neg hskip] at h
          rcases add_deps_mem_bound attr skip tool.deps s x h with h2 | h2
          · exact Or.inl h2
          · have := Tool.sizeOf_deps_lt tool
            right; omega
      · rw [List.mem_singleton] at h
        subst h
        exact Or.inr le_rfl
termination_by tool _ _ => sizeOf tool
decreasing_by
  cases tool with
  | mk n ds => simp [Tool.deps]

theorem add_deps_mem_bound (attr : Tool → Status) (skip : Bool) :
    ∀ (ds : List Tool) (s : RunState) (x : Tool),
      x ∈ (add_deps_to_run_list attr skip ds s).run_list →
      x ∈ s.run_list ∨ sizeOf x < sizeOf ds
  | [], s, x => by
    intro hx
    simp only [add_deps_to_run_list] at hx
    exact Or.inl hx
  | d :: ds, s, x => by
    intro hx
    simp only [add_deps_to_run_list] at hx
    rcases add_deps_mem_bound attr skip ds _ x hx with h | h
    · split at h
      · rcases add_to_run_list_mem_bound attr skip d s x h with h2 | h2
        · exact Or.inl h2
        · right
          simp only [List.cons.sizeOf_spec]
          omega
      · exact Or.inl h
    · right
      simp only [List.cons.sizeOf_spec]
      omega
termination_by ds _ _ => sizeOf ds
decreasing_by
  all_goals (simp only [List.cons.sizeOf_spec]; omega)

end

mutual

theorem add_to_run_list_nodup (attr : Tool → Status) (skip : Bool) :
    ∀ (tool : Tool) (s : RunState), s.run_list.Nodup →
      (add_to_run_list attr skip tool s).run_list.Nodup
  | tool, s => by
    intro h
    rw [add_to_run_list]
    split
    · exact h
    · rename_i hmem
      show ((if skip then s
          else add_deps_to_run_list attr skip tool.deps s).run_list ++ [tool]).Nodup
      have hn1 : (if skip then s
          else add_deps_to_run_list attr skip tool.deps s).run_list.Nodup := by
        by_cases hskip : skip = true
        · rw [if_pos hskip]; exact h
        · rw [if_neg hskip]
          exact add_deps_nodup attr skip tool.deps s h
      have hnm : tool ∉ (if skip then s
          else add_deps_to_run_list attr skip tool.deps s).run_list := by
        by_cases hskip : skip = true
        · rw [if_pos hskip]; exact hmem
        · rw [if_neg hskip]
          intro hc
          rcases add_deps_mem_bound attr skip tool.deps s tool hc with h2 | h2
          · exact hmem h2
          · have := Tool.sizeOf_deps_lt tool
            omega
      rw [List.nodup_append]
      refine ⟨hn1, List.nodup_singleton _, fun a ha hb => ?_⟩
      rw [List.mem_singleton] at hb
      subst hb
      exact hnm ha
termination_by tool _ => sizeOf tool
decreasing_by
  cases tool with
  | mk n ds => simp [Tool.deps]

theorem add_deps_nodup (attr : Tool → Status) (skip : Bool) :
    ∀ (ds : List Tool) (s : RunState), s.run_list.Nodup →
      (add_deps_to_run_list attr skip ds s).run_list.Nodup
  | [], s => by
    intro h
    simpa [add_deps_to_run_list] using h
  | d :: ds, s => by
    intro h
    simp only [add_deps_to_run_list]
    refine add_deps_nodup attr skip ds _ ?_
    split
    · exact add_to_run_list_nodup attr skip d s h
    · exact h
termination_by ds _ => sizeOf ds
decreasing_by
  all_goals (simp only [List.cons.sizeOf_spec]; omega)

end

theorem add_deps_mem_of_dep (attr : Tool → Status) (skip : Bool) :
    ∀ (ds : List Tool) (s : RunState) (d : Tool), d ∈ ds →
      attr d ≠ Status.success →
      d ∈ (add_deps_to_run_list attr skip ds s).run_list := by
  intro ds
  induction ds with
  | nil =>
    intro s d hd
    simp at hd
  | cons e es ih =>
    intro s d hd hns
    simp only [add_deps_to_run_list]
    rcases List.mem_cons.mp hd with rfl | hd2
    · refine add_deps_mem_mono attr skip es _ d ?_
      rw [if_pos hns]
      exact add_to_run_list_self_mem attr skip d s
    · exact ih _ d hd2 hns

mutual

theorem add_to_run_list_disp_inv (attr : Tool → Status) (skip : Bool) :
    ∀ (tool : Tool) (s : RunState),
      (∀ x, s.disp x = Status.pending → x ∈ s.run_list) →
      ∀ x, (add_to_run_list attr skip tool s).disp x = Status.pending →
        x ∈ (add_to_run_list attr skip tool s).run_list
  | tool, s => by
    intro hinv x
    rw [add_to_run_list]
    split
    · exact hinv x
    · intro hx
      show x ∈ (if skip then s
          else add_deps_to_run_list attr skip tool.deps s).run_list ++ [tool]
      by_cases hxt : x = tool
      · subst hxt
        exact List.mem_append_right _ (by simp)
      · have hx2 : (if skip then s
            else add_deps_to_run_list attr skip tool.deps s).disp x
            = Status.pending := by
          have hx3 : (if x = tool then Status.pending
              else (if skip then s
                else add_deps_to_run_list attr skip tool.deps s).disp x)
              = Status.pending := hx
          rwa [if_neg hxt] at hx3
        refine List.mem_append_left _ ?_
        by_cases hskip : skip = true
        · rw [if_pos hskip] at hx2 ⊢
          exact hinv x hx2
        · rw [if_neg hskip] at hx2 ⊢
          exact add_deps_disp_inv attr skip tool.deps s hinv x hx2
termination_by tool _ => sizeOf tool
decreasing_by
  cases tool with
  | mk n ds => simp [Tool.deps]

theorem add_deps_disp_inv (attr : Tool → Status) (skip : Bool) :
    ∀ (ds : List Tool) (s : RunState),
      (∀ x, s.disp x = Status.pending → x ∈ s.run_list) →
      ∀ x, (add_deps_to_run_list attr skip ds s).disp x = Status.pending →
        x ∈ (add_deps_to_run_list attr skip ds s).run_list
  | [], s => by
    intro hinv x hx
    simp only [add_deps_to_run_list] at hx ⊢
    exact hinv x hx
  | d :: ds, s => by
    intro hinv x
    simp only [add_deps_to_run_list]
    refine add_deps_disp_inv attr skip ds _ ?_ x
    intro y hy
    by_cases hc : attr d ≠ Status.success
    · rw [if_pos hc] at hy ⊢
      exact add_to_run_list_disp_inv attr skip d s hinv y hy
    · rw [if_neg hc] at hy ⊢
      exact hinv y hy
termination_by ds _ => sizeOf ds
decreasing_by
  all_goals (simp only [List.cons.sizeOf_spec]; omega)

end

theorem add_to_run_list_run_list_eq (attr : Tool → Status) (tool : Tool)
    (s : RunState) (h : tool ∉ s.run_list) :
    (add_to_run_list attr false tool s).run_list
      = (add_deps_to_run_list attr false tool.deps s).run_list ++ [tool] := by
  rw [add_to_run_list, if_neg h]
  rfl

theorem check_run_list_attr (s : SchedState) :
    (check_run_list s).1.attr = s.attr := by
  unfold check_run_list
  split
  · rfl
  · split
    · rfl
    · rfl

theorem check_run_list_disp_inv (s : SchedState) (h : DispInv s) :
    DispInv (check_run_list s).1 := by
  unfold check_run_list
  split
  · exact h
  · split
    · intro x hx
      exfalso
      have hx2 : (if x ∈ s.tools ∧ s.attr x = Status.pending then Status.incomplete
          else if x ∈ s.run.run_list then Status.incomplete else s.run.disp x)
          = Status.pending := hx
      by_cases h1 : x ∈ s.tools ∧ s.attr x = Status.pending
      · rw [if_pos h1] at hx2; simp at hx2
      · rw [if_neg h1] at hx2
        by_cases h2 : x ∈ s.run.run_list
        · rw [if_pos h2] at hx2; simp at hx2
        · rw [if_neg h2] at hx2
          exact h2 (h x hx2)
    · exact h

theorem sched_step_disp_inv (s s2 : SchedState) (hstep : SchedStep s s2)
    (h : DispInv s) : DispInv s2 := by
  cases hstep with
  | enqueue t skip s =>
    intro x hx
    exact add_to_run_list_disp_inv s.attr skip t s.run h x hx
  | drain s => exact check_run_list_disp_inv s h
  | tool_start t s hh =>
    intro x hx
    have hx2 : (if x = t then Status.in_progress else s.run.disp x)
        = Status.pending := hx
    by_cases hxt : x = t
    · rw [if_pos hxt] at hx2; simp at hx2
    · rw [if_neg hxt] at hx2
      exact h x hx2
  | tool_finish t ok s hh =>
    apply check_run_list_disp_inv
    intro x hx
    obtain ⟨tl, htl⟩ : ∃ tl, s.run.run_list = t :: tl := by
      cases hcase : s.run.run_list with
      | nil => rw [hcase] at hh; cases hh
      | cons a tl =>
        rw [hcase] at hh
        simp only [List.head?_cons, Option.some.injEq] at hh
        exact ⟨tl, by rw [hh]⟩
    have hx2 : (if x = t then (if ok then Status.success else Status.failure)
        else s.run.disp x) = Status.pending := hx
    by_cases hxt : x = t
    · rw [if_pos hxt] at hx2
      cases ok <;> simp at hx2
    · rw [if_neg hxt] at hx2
      have hmem := h x hx2
      rw [htl] at hmem
      have hxtl : x ∈ tl := by
        rcases List.mem_cons.mp hmem with heq | h2
        · exact absurd heq hxt
        · exact h2
      show x ∈ s.run.run_list.tail
      rw [htl]
      exact hxtl
  | remove t s =>
    intro x hx
    unfold remove_step at hx ⊢
    by_cases hmem : t ∈ s.run.run_list
    · rw [if_pos hmem] at hx ⊢
      have hx2 : (if x = t then Status.incomplete else s.run.disp x)
          = Status.pending := hx
      by_cases hxt : x = t
      · rw [if_pos hxt] at hx2; simp at hx2
      · rw [if_neg hxt] at hx2
        exact (List.mem_erase_of_ne hxt).mpr (h x hx2)
    · rw [if_neg hmem] at hx ⊢
      exact h x hx
  | reset_all s =>
    intro x hx
    exfalso
    have hx2 : (if x ∈ s.tools then Status.incomplete
        else if x ∈ s.run.run_list then Status.incomplete else s.run.disp x)
        = Status.pending := hx
    by_cases h1 : x ∈ s.tools
    · rw [if_pos h1] at hx2; simp at hx2
    · rw [if_neg h1] at hx2
      by_cases h2 : x ∈ s.run.run_list
      · rw [if_pos h2] at hx2; simp at hx2
      · rw [if_neg h2] at hx2
        exact h2 (h x hx2)
  | toggle_halt b s => exact h

theorem reach_disp_inv (ts : List Tool) (hof : Bool) (s : SchedState)
    (h : Reachable ts hof s) : DispInv s := by
  unfold Reachable at h
  induction h with
  | refl =>
    intro x hx
    simp [init_state] at hx
  | tail hab hbc ih => exact sched_step_disp_inv _ _ hbc ih

theorem sched_step_attr_not_pending (s s2 : SchedState) (hstep : SchedStep s s2)
    (ih : ∀ t, s.attr t ≠ Status.pending) : ∀ t, s2.attr t ≠ Status.pending := by
  cases hstep with
  | enqueue t skip s => exact ih
  | drain s =>
    rw [check_run_list_attr]
    exact ih
  | tool_start t s hh =>
    intro x
    show (if x = t then Status.in_progress else s.attr x) ≠ Status.pending
    by_cases hxt : x = t
    · rw [if_pos hxt]; simp
    · rw [if_neg hxt]; exact ih x
  | tool_finish t ok s hh =>
    intro x
    unfold finish_step
    rw [check_run_list_attr]
    show (if x = t then (if ok then Status.success else Status.failure)
        else s.attr x) ≠ Status.pending
    by_cases hxt : x = t
    · rw [if_pos hxt]; cases ok <;> simp
    · rw [if_neg hxt]; exact ih x
  | remove t s =>
    intro x
    unfold remove_step
    split
    · exact ih x
    · exact ih x
  | reset_all s =>
    intro x
    show (if x ∈ s.tools then Status.incomplete else s.attr x) ≠ Status.pending
    by_cases h1 : x ∈ s.tools
    · rw [if_pos h1]; simp
    · rw [if_neg h1]; exact ih x
  | toggle_halt b s => exact ih

theorem reach_attr_not_pending (ts : List Tool) (hof : Bool) (s : SchedState)
    (h : Reachable ts hof s) : ∀ t, s.attr t ≠ Status.pending := by
  unfold Reachable at h
  induction h with
  | refl =>
    intro t
    simp [init_state]
  | tail hab hbc ih => exact sched_step_attr_not_pending _ _ hbc ih

/-! ### Claim theorems -/

/-- C5: for every assignment of statuses to the tool set, the aggregate
status of set_status equals the cascade InProgress, else Failure, else
Pending, else Incomplete, else Success. -/
theorem set_status_aggregate_correct (statuses : List Status) :
    set_status_aggregate statuses = aggregate_cascade statuses := by
  unfold set_status_aggregate aggregate_cascade
  by_cases h1 : Status.in_progress ∈ statuses <;>
    by_cases h2 : Status.failure ∈ statuses <;>
      by_cases h3 : Status.pending ∈ statuses <;>
        by_cases h4 : Status.incomplete ∈ statuses <;>
          simp [List.count_eq_zero, List.any_eq_true, h1, h2, h3, h4]

/-- C8: evaluation of msecs_to_string at the failing input 86400000
(exactly one day, hour-of-day zero).  Two slips compound in the day
branches.  First, hours is computed as (msecs - days) // 3600000 with
days a day count rather than a millisecond amount, so for any whole
number of days it is about 24*days instead of the hour-of-day and the
hours segment is never omitted.  Second, the " days, " text is spliced
into the Qt format string unquoted, so its a becomes the am/pm
specifier (which also switches h to 12-hour display, rendering
hour-of-day zero as 12) and its s becomes an unpadded seconds
specifier; the claimed rendering "1 days, 0:00.000" never occurs. -/
theorem msecs_to_string_day_boundary :
    msecs_to_string 86400000 = "1 damy0, 12:00:00.000" := by decide

/-- C10: assign_start_times with dry_run = False always returns 0; the
overwrite counter is incremented only in the dry-run branch. -/
theorem assign_start_times_not_dry_returns_zero (db : Database) (fn : String)
    (t i : Int) (db2 : Database) (n : Nat)
    (h : assign_start_times db fn t i false = .ok (db2, n)) : n = 0 := by
  unfold assign_start_times at h
  split at h
  · simp at h
  · split at h
    · simp at h
    · simp only [Except.ok.injEq, Prod.mk.injEq] at h
      rw [← h.2, assign_loop_snd_not_dry]

theorem assign_start_times_not_dry_returns_zero_witness :
    assign_start_times ⟨[], [], [], 1⟩ "" 0 30 false = .ok (⟨[], [], [], 1⟩, 0) ∧
      (0 : Nat) = 0 :=
  ⟨by rfl, assign_start_times_not_dry_returns_zero ⟨[], [], [], 1⟩ "" 0 30 ⟨[], [], [], 1⟩ 0 (by rfl)⟩

/-- C2: for a known field F, a valid start t and interval i, the dry run
mutates nothing and returns the count of F racers whose start is not the
UNINITIALIZED sentinel; the real run leaves fields, results and the
racers outside F unchanged and gives the k-th racer of F (table order, k
from 0) the start t + k*i*1000. -/
theorem assign_start_times_correct (db : Database) (fn : String) (t i : Int)
    (hfn : fn ≠ "") (hid : py_falsy_id (id_from_name db.fields fn) = false)
    (ht : msecs_is_valid t = true) :
    assign_start_times db fn t i true
      = .ok (db, db.racers.countP (fun r =>
          decide (racer_field_name db.fields r = some fn ∧
                  r.start ≠ MSECS_UNINITIALIZED)))
    ∧ ∀ (db2 : Database) (n : Nat),
        assign_start_times db fn t i false = .ok (db2, n) →
        db2.fields = db.fields ∧ db2.results = db.results ∧
        db2.racers.length = db.racers.length ∧
        ∀ j : Nat, db2.racers[j]?
          = (db.racers[j]?).map (fun r =>
              if racer_field_name db.fields r = some fn
              then { r with start := t +
                     (((db.racers.take j).countP
                        (fun x => decide (racer_field_name db.fields x = some fn))) : Int)
                     * (i * 1000) }
              else r) := by
  constructor
  · unfold assign_start_times
    rw [assign_loop_dry_run db.fields fn i hfn]
    simp [hid, ht]
  · intro db2 n h
    unfold assign_start_times at h
    rw [if_neg (by simp [hid]), if_neg (by simp [ht])] at h
    simp only [Except.ok.injEq, Prod.mk.injEq] at h
    obtain ⟨hdb2, hn⟩ := h
    subst hdb2
    refine ⟨rfl, rfl, assign_loop_length db.fields fn i false db.racers t 0, ?_⟩
    intro j
    exact assign_loop_get db.fields fn i hfn db.racers t 0 j

theorem assign_start_times_correct_witness :
    ("FieldA" ≠ "") ∧ py_falsy_id (id_from_name w2_db.fields "FieldA") = false ∧
    msecs_is_valid 1000 = true ∧
    assign_start_times w2_db "FieldA" 1000 30 true = .ok (w2_db, 1) := by
  refine ⟨by decide, by decide, by decide, ?_⟩
  rw [(assign_start_times_correct w2_db "FieldA" 1000 30 (by decide) (by decide)
        (by decide)).1]
  rfl

/-- C1 counterexample: with A = 0 and B = sys.maxsize (distinct
datetimes), rebasing a racer whose start is the valid value 0 drives the
start below the sentinel threshold; the reverse call then leaves it
untouched, so the round trip does not restore the original value. -/
theorem change_reference_clock_roundtrip_cex :
    change_reference_clock_datetime PY_MAXSIZE 0
      (change_reference_clock_datetime 0 PY_MAXSIZE [cex_racer]) ≠ [cex_racer] := by
  decide

/-- C1 (amended): for distinct datetimes A and B,
changeReferenceClock(A, B) subtracts deltaMsecs = A.elapsedMsecsTo(B)
from every racer start and finish value that is valid and leaves
non-valid (sentinel) values unchanged; and provided the subtraction
leaves every valid start and finish value valid (above the sentinel
threshold), the round trip changeReferenceClock(A, B) then
changeReferenceClock(B, A) restores every racer exactly. -/
theorem change_reference_clock_amended (A B : Int) (racers : List Racer)
    (hAB : A ≠ B) :
    (∀ j : Nat,
      ((change_reference_clock_datetime A B racers)[j]?).map Racer.start
        = (racers[j]?).map (fun r =>
            if msecs_is_valid r.start then r.start - msecsTo A B else r.start) ∧
      ((change_reference_clock_datetime A B racers)[j]?).map Racer.finish
        = (racers[j]?).map (fun r =>
            if msecs_is_valid r.finish then r.finish - msecsTo A B else r.finish))
    ∧ ((∀ r ∈ racers,
        (msecs_is_valid r.start → msecs_is_valid (r.start - msecsTo A B)) ∧
        (msecs_is_valid r.finish → msecs_is_valid (r.finish - msecsTo A B))) →
      change_reference_clock_datetime B A
        (change_reference_clock_datetime A B racers) = racers) := by
  constructor
  · intro j
    unfold change_reference_clock_datetime
    simp only [hAB, if_false]
    constructor <;>
      · cases hj : racers[j]? with
        | none => simp [List.getElem?_map, hj]
        | some r => simp [List.getElem?_map, hj, rebase_racer_start, rebase_racer_finish]
  · intro hval
    unfold change_reference_clock_datetime
    simp only [hAB, Ne.symm hAB, if_false]
    rw [List.map_map]
    have : msecsTo B A = -(msecsTo A B) := by unfold msecsTo; ring
    rw [this]
    induction racers with
    | nil => rfl
    | cons r rs ih =>
      simp only [List.map_cons, Function.comp_apply]
      have hr := hval r (by simp)
      rw [rebase_racer_roundtrip _ _ hr.1 hr.2]
      rw [List.cons.injEq]
      exact ⟨rfl, ih (fun x hx => hval x (by simp [hx]))⟩

theorem change_reference_clock_amended_witness :
    ((0 : Int) ≠ 500) ∧
    (∀ r ∈ [cex_racer],
      (msecs_is_valid r.start → msecs_is_valid (r.start - msecsTo 0 500)) ∧
      (msecs_is_valid r.finish → msecs_is_valid (r.finish - msecsTo 0 500))) ∧
    change_reference_clock_datetime 500 0
      (change_reference_clock_datetime 0 500 [cex_racer]) = [cex_racer] :=
  ⟨by decide, by decide,
   (change_reference_clock_amended 0 500 [cex_racer] (by decide)).2 (by decide)⟩

/-- C6: when the scratchpad of the result row does not resolve to a
racer bib, submit_result raises the racer not-found error with no state
change (the error propagates before removeRow, so the Result row
survives); when it does resolve, the first matching racer gets the
finish value and status local, and the Result row is deleted. -/
theorem submit_result_correct (db : Database) (row : Nat) (rec : ResultRow)
    (hrow : db.results.get? row = some rec) :
    ((∀ r ∈ db.racers, r.bib ≠ rec.scratchpad) →
        submit_result db row
          = .error ("Failed to find racer with bib " ++ rec.scratchpad))
    ∧ ∀ (j : Nat) (r0 : Racer), db.racers[j]? = some r0 →
        r0.bib = rec.scratchpad →
        (∀ (k : Nat) (rk : Racer), k < j → db.racers[k]? = some rk →
          rk.bib ≠ rec.scratchpad) →
        submit_result db row
          = .ok { db with
                  racers := db.racers.set j
                    { r0 with finish := rec.finish, status := "local" },
                  results := db.results.eraseIdx row } := by
  constructor
  · intro hnone
    unfold submit_result
    rw [hrow]
    have hu : update_first_racer (fun r => r.bib == rec.scratchpad)
        (fun r => { r with finish := rec.finish }) db.racers = none :=
      update_first_racer_eq_none _ _ _ (fun r hr => by simp [hnone r hr])
    simp [set_racer_finish, hu]
  · intro j r0 hj hbib hbefore
    have hlen : j < db.racers.length := (List.getElem?_eq_some_iff.mp hj).1
    unfold submit_result
    rw [hrow]
    have h1 : update_first_racer (fun r => r.bib == rec.scratchpad)
        (fun r => { r with finish := rec.finish }) db.racers
        = some (db.racers.set j { r0 with finish := rec.finish }) :=
      update_first_racer_eq_some _ _ db.racers j r0 hj (by simp [hbib])
        (fun k rk hk hkr => by simp [hbefore k rk hk hkr])
    have h2 : update_first_racer (fun r => r.bib == rec.scratchpad)
        (fun r => { r with status := "local" })
        (db.racers.set j { r0 with finish := rec.finish })
        = some ((db.racers.set j { r0 with finish := rec.finish }).set j
            { r0 with finish := rec.finish, status := "local" }) := by
      exact update_first_racer_eq_some _ _ _ j { r0 with finish := rec.finish }
        (List.getElem?_set_eq_of_lt _ hlen) (by simp [hbib])
        (fun k rk hk hkr => by
          rw [List.getElem?_set_ne (by omega)] at hkr
          simp [hbefore k rk hk hkr])
    simp [set_racer_finish, h1, set_racer_status, h2, List.set_set]

theorem submit_result_correct_witness :
    (⟨[], [⟨"5", "E", "F", 1, "", "", 0, MSECS_UNINITIALIZED, MSECS_UNINITIALIZED,
          "", EMPTY_JSON⟩], [⟨"5", 200⟩], 2⟩ : Database).results.get? 0
      = some ⟨"5", 200⟩
    ∧ submit_result ⟨[], [⟨"5", "E", "F", 1, "", "", 0, MSECS_UNINITIALIZED,
          MSECS_UNINITIALIZED, "", EMPTY_JSON⟩], [⟨"5", 200⟩], 2⟩ 0
      = .ok ⟨[], [⟨"5", "E", "F", 1, "", "", 0, MSECS_UNINITIALIZED, 200,
          "local", EMPTY_JSON⟩], [], 2⟩ := by
  constructor
  · rfl
  · rw [(submit_result_correct _ 0 ⟨"5", 200⟩ (by rfl)).2 0
        ⟨"5", "E", "F", 1, "", "", 0, MSECS_UNINITIALIZED, MSECS_UNINITIALIZED,
          "", EMPTY_JSON⟩ (by rfl) rfl (by intro k rk hk hkr; omega)]
    rfl

/-- C7 counterexample: on an empty database, add_racer with an empty bib
and otherwise well-formed arguments succeeds; the source has no empty-bib
validation, so the claimed "validation error when the bib is empty" does
not occur. -/
theorem add_racer_empty_bib_cex :
    add_racer ⟨[], [], [], 1⟩ "" "A" "B" "X" "" "" 0 MSECS_UNINITIALIZED
        MSECS_UNINITIALIZED "" EMPTY_JSON
      = .ok ⟨[⟨1, "X", "", EMPTY_JSON⟩],
             [⟨"", "A", "B", 1, "", "", 0, MSECS_UNINITIALIZED, MSECS_UNINITIALIZED,
               "", EMPTY_JSON⟩], [], 2⟩ := by
  rfl

/-- C7 (amended): under a well-formed database (field primary keys are
nonzero, as SQLite row ids are), add_racer raises a validation error iff
the bib duplicates an existing racer bib, or both names are empty, or the
field name is empty (the source has no empty-bib validation); otherwise
it succeeds, and when the field name is unknown exactly one Field row
with default subfields and metadata is created and exactly one Racer row
referencing it is inserted. -/
theorem add_racer_amended (db : Database)
    (bib fn ln fld cat team : String) (age st fin : Int) (stt md : String)
    (hwf : ∀ f ∈ db.fields, f.id ≠ 0) :
    ((∃ e, add_racer db bib fn ln fld cat team age st fin stt md = .error e) ↔
      ((db.racers.find? (fun r => r.bib == bib)).isSome = true ∨
        (fn = "" ∧ ln = "") ∨ fld = ""))
    ∧ (id_from_name db.fields fld = none →
        (db.racers.find? (fun r => r.bib == bib)).isSome = false →
        ¬(fn = "" ∧ ln = "") → fld ≠ "" →
        add_racer db bib fn ln fld cat team age st fin stt md
          = .ok { db with
                  fields := db.fields ++ [⟨db.nextFieldId, fld, "", EMPTY_JSON⟩],
                  nextFieldId := db.nextFieldId + 1,
                  racers := db.racers ++
                    [⟨bib, fn, ln, db.nextFieldId, cat, team, age, st, fin, stt, md⟩] }) := by
  constructor
  · constructor
    · rintro ⟨e, he⟩
      by_contra hc
      rw [not_or, not_or] at hc
      obtain ⟨hdup, hnames, hfld⟩ := hc
      rw [Bool.not_eq_true] at hdup
      obtain ⟨db2, hok⟩ :=
        add_racer_no_error db bib fn ln fld cat team age st fin stt md hwf
          hdup hnames hfld
      rw [hok] at he
      cases he
    · intro h
      unfold add_racer
      by_cases hdup : (db.racers.find? (fun r => r.bib == bib)).isSome = true
      · exact ⟨_, by rw [if_pos hdup]⟩
      · rw [if_neg hdup]
        by_cases hnames : fn = "" ∧ ln = ""
        · exact ⟨_, by rw [if_pos hnames]⟩
        · rw [if_neg hnames]
          rcases h with h | h | h
          · exact absurd h hdup
          · exact absurd h hnames
          · exact ⟨_, by rw [if_pos h]⟩
  · intro hid hdup hnames hfld
    have hff : db.fields.find? (fun f => f.name == fld) = none := by
      rcases id_from_name_cases db.fields fld with ⟨_, hff⟩ | ⟨f, hff, hid2⟩
      · exact hff
      · rw [hid2] at hid; cases hid
    unfold add_racer
    rw [if_neg (by simp [hdup]), if_neg hnames, if_neg hfld]
    simp [hid, py_falsy_id, add_field, hfld, hff, id_from_name, List.find?_append]

theorem add_racer_amended_witness :
    (∀ f ∈ ([⟨1, "Y", "", EMPTY_JSON⟩] : List RaceField), f.id ≠ 0) ∧
    add_racer ⟨[⟨1, "Y", "", EMPTY_JSON⟩], [], [], 2⟩ "7" "A" "" "X" "" "" 0
        MSECS_UNINITIALIZED MSECS_UNINITIALIZED "" EMPTY_JSON
      = .ok ⟨[⟨1, "Y", "", EMPTY_JSON⟩, ⟨2, "X", "", EMPTY_JSON⟩],
             [⟨"7", "A", "", 2, "", "", 0, MSECS_UNINITIALIZED, MSECS_UNINITIALIZED,
               "", EMPTY_JSON⟩], [], 3⟩ := by
  refine ⟨by decide, ?_⟩
  rw [(add_racer_amended ⟨[⟨1, "Y", "", EMPTY_JSON⟩], [], [], 2⟩ "7" "A" "" "X" "" ""
        0 MSECS_UNINITIALIZED MSECS_UNINITIALIZED "" EMPTY_JSON
        (by decide)).2 (by rfl) (by rfl) (by decide) (by decide)]
  rfl

/-- C3 counterexample: with run-list [C] where C depends on A (status
Incomplete, not Success), enqueuing C again is a no-op, so A neither
appears before C nor appears at all; the unconditional claim that every
non-Success dependency ends up strictly before the tool fails on
already-queued tools. -/
theorem add_to_run_list_already_present_cex :
    (add_to_run_list (fun _ => Status.incomplete) false tool_c
        ⟨[tool_c], fun _ => Status.incomplete⟩).run_list = [tool_c]
    ∧ tool_a ∈ tool_c.deps
    ∧ (fun _ => Status.incomplete) tool_a ≠ Status.success
    ∧ tool_a ∉ (add_to_run_list (fun _ => Status.incomplete) false tool_c
        ⟨[tool_c], fun _ => Status.incomplete⟩).run_list := by
  refine ⟨?_, ?_, ?_, ?_⟩
  · simp [add_to_run_list]
  · simp [tool_a, tool_c, Tool.deps]
  · simp
  · simp [add_to_run_list, tool_a, tool_c]

/-- C3 (amended): when the enqueued tool is not already in the run-list
and the run-list has no duplicates, enqueue with skipDependencies = False
appends the tool at the end, every dependency with status not Success is
in the strict prefix before it, and the result has no duplicates; when
the tool is already queued, enqueue is a no-op on the whole run state. -/
theorem add_to_run_list_amended (attr : Tool → Status) (tool : Tool) (s : RunState)
    (h1 : tool ∉ s.run_list) (h2 : s.run_list.Nodup) :
    (∃ l, (add_to_run_list attr false tool s).run_list = l ++ [tool]
       ∧ tool ∉ l
       ∧ (∀ d ∈ tool.deps, attr d ≠ Status.success → d ∈ l)
       ∧ (l ++ [tool]).Nodup)
    ∧ ∀ (t2 : Tool) (s2 : RunState), t2 ∈ s2.run_list →
        add_to_run_list attr false t2 s2 = s2 := by
  constructor
  · refine ⟨(add_deps_to_run_list attr false tool.deps s).run_list,
      add_to_run_list_run_list_eq attr tool s h1, ?_, ?_, ?_⟩
    · intro hc
      rcases add_deps_mem_bound attr false tool.deps s tool hc with h3 | h3
      · exact h1 h3
      · have := Tool.sizeOf_deps_lt tool
        omega
    · intro d hd hns
      exact add_deps_mem_of_dep attr false tool.deps s d hd hns
    · rw [← add_to_run_list_run_list_eq attr tool s h1]
      exact add_to_run_list_nodup attr false tool s h2
  · intro t2 s2 hmem
    rw [add_to_run_list, if_pos hmem]

theorem add_to_run_list_amended_witness :
    (tool_c ∉ ([] : List Tool)) ∧ ([] : List Tool).Nodup ∧
    (∃ l, (add_to_run_list (fun _ => Status.incomplete) false tool_c
        ⟨[], fun _ => Status.incomplete⟩).run_list = l ++ [tool_c]
      ∧ tool_c ∉ l
      ∧ (∀ d ∈ tool_c.deps, (fun _ => Status.incomplete) d ≠ Status.success → d ∈ l)
      ∧ (l ++ [tool_c]).Nodup) := by
  refine ⟨by simp, List.nodup_nil, ?_⟩
  exact (add_to_run_list_amended (fun _ => Status.incomplete) tool_c
    ⟨[], fun _ => Status.incomplete⟩ (by simp) List.nodup_nil).1

/-- C4: in any reachable scheduler state with halt-on-failure enabled and
some tool of the table showing status attribute Failure, the drain step
starts no tool; the run-list is cleared and every tool whose displayed
status was Pending is reverted to Incomplete. -/
theorem check_run_list_halt_on_failure (ts : List Tool) (hof : Bool)
    (s : SchedState) (hreach : Reachable ts hof s)
    (hhalt : s.halt_on_failure = true)
    (hfail : ∃ t ∈ s.tools, s.attr t = Status.failure) :
    (check_run_list s).2 = none
    ∧ (check_run_list s).1.run.run_list = []
    ∧ ∀ t, s.run.disp t = Status.pending →
        (check_run_list s).1.run.disp t = Status.incomplete := by
  have hinv : DispInv s := reach_disp_inv ts hof s hreach
  obtain ⟨tf, htf, htfs⟩ := hfail
  by_cases hempty : s.run.run_list.isEmpty = true
  · rw [check_run_list, if_pos hempty]
    refine ⟨rfl, by simpa [List.isEmpty_iff] using hempty, ?_⟩
    intro t ht
    exfalso
    have := hinv t ht
    rw [List.isEmpty_iff.mp hempty] at this
    simp at this
  · have hcond : s.halt_on_failure = true ∧
        s.tools.any (fun t => s.attr t == Status.failure) = true := by
      refine ⟨hhalt, ?_⟩
      rw [List.any_eq_true]
      exact ⟨tf, htf, by simp [htfs]⟩
    rw [check_run_list, if_neg hempty, if_pos hcond]
    refine ⟨rfl, rfl, ?_⟩
    intro t ht
    show (if t ∈ s.tools ∧ s.attr t = Status.pending then Status.incomplete
        else if t ∈ s.run.run_list then Status.incomplete else s.run.disp t)
        = Status.incomplete
    by_cases hc1 : t ∈ s.tools ∧ s.attr t = Status.pending
    · rw [if_pos hc1]
    · rw [if_neg hc1, if_pos (hinv t ht)]

theorem check_run_list_halt_on_failure_witness :
    Reachable [w_tool] true w_s3
    ∧ w_s3.halt_on_failure = true
    ∧ (∃ t ∈ w_s3.tools, w_s3.attr t = Status.failure)
    ∧ (check_run_list w_s3).2 = none
    ∧ (check_run_list w_s3).1.run.run_list = [] := by
  have hhead1 : w_s1.run.run_list.head? = some w_tool := by
    simp [w_s1, enqueue_step, init_state, add_to_run_list, add_deps_to_run_list,
      Tool.deps, w_tool]
  have hhead2 : w_s2.run.run_list.head? = some w_tool := by
    simpa [w_s2, change_status_step] using hhead1
  have hreach : Reachable [w_tool] true w_s3 :=
    Relation.ReflTransGen.tail
      (Relation.ReflTransGen.tail
        (Relation.ReflTransGen.tail Relation.ReflTransGen.refl
          (SchedStep.enqueue w_tool false (init_state [w_tool] true)))
        (SchedStep.tool_start w_tool w_s1 hhead1))
      (SchedStep.tool_finish w_tool false w_s2 hhead2)
  have hrl : w_s2.run.run_list = [w_tool] := by
    simp [w_s2, change_status_step, w_s1, enqueue_step, init_state,
      add_to_run_list, add_deps_to_run_list, Tool.deps, w_tool]
  have hs3 : w_s3 = (check_run_list
      { w_s2 with attr := fun x => if x = w_tool then Status.failure else w_s2.attr x,
                  run := ⟨(w_s2.run.run_list).tail,
                    fun x => if x = w_tool then Status.failure else w_s2.run.disp x⟩ }).1 := by
    rfl
  have hhalt : w_s3.halt_on_failure = true := by
    rw [hs3, check_run_list, if_pos (by simp [hrl])]
    simp [w_s2, change_status_step, w_s1, enqueue_step, init_state]
  have hfail : ∃ t ∈ w_s3.tools, w_s3.attr t = Status.failure := by
    refine ⟨w_tool, ?_, ?_⟩
    · rw [hs3, check_run_list, if_pos (by simp [hrl])]
      simp [w_s2, change_status_step, w_s1, enqueue_step, init_state]
    · rw [hs3, check_run_list, if_pos (by simp [hrl])]
      simp
  obtain ⟨hc1, hc2, _⟩ :=
    check_run_list_halt_on_failure [w_tool] true w_s3 hreach hhalt hfail
  exact ⟨hreach, hhalt, hfail, hc1, hc2⟩

/-- C9: enqueuing changes only the run state (the displayed status cell
of the tool becomes Pending when it is newly queued) and never the status
attribute of any tool; in every reachable scheduler state no tool status
attribute holds Pending, since change_status is only invoked with
Incomplete, InProgress, Success or Failure. -/
theorem tool_status_never_pending :
    (∀ (s : SchedState) (t : Tool) (skip : Bool),
        (enqueue_step t skip s).attr = s.attr
        ∧ (t ∉ s.run.run_list →
            (enqueue_step t skip s).run.disp t = Status.pending))
    ∧ ∀ (ts : List Tool) (hof : Bool) (s : SchedState),
        Reachable ts hof s → ∀ t, s.attr t ≠ Status.pending := by
  constructor
  · intro s t skip
    refine ⟨rfl, ?_⟩
    intro hmem
    show (add_to_run_list s.attr skip t s.run).disp t = Status.pending
    rw [add_to_run_list, if_neg hmem]
    show (if t = t then Status.pending
        else (if skip then s.run
          else add_deps_to_run_list s.attr skip t.deps s.run).disp t)
        = Status.pending
    rw [if_pos rfl]
  · exact reach_attr_not_pending

theorem tool_status_never_pending_witness :
    (w_tool ∉ (init_state [w_tool] true).run.run_list)
    ∧ (enqueue_step w_tool false (init_state [w_tool] true)).run.disp w_tool
        = Status.pending
    ∧ (init_state [w_tool] true).attr w_tool ≠ Status.pending :=
  ⟨by simp [init_state],
   (tool_status_never_pending.1 (init_state [w_tool] true) w_tool false).2
     (by simp [init_state]),
   tool_status_never_pending.2 [w_tool] true (init_state [w_tool] true)
     Relation.ReflTransGen.refl w_tool⟩

end SexyThyme
